import Mathlib

/-!
Shallow embedding of the OAI-PMH metadata-audit pipeline in `src/app.py`.

Conventions used throughout:
* A pandas cell is modelled as `Option String`: `none` is a missing cell
  (pandas stores it as the float `NaN`), `some s` is a present string — a
  present empty string is distinct from a missing cell.
* Python truthiness and `str` rendering of a missing cell follow CPython:
  `bool(float("nan")) = True` and `str(float("nan")) = "nan"`.
* Regex word characters are modelled over ASCII (`[A-Za-z0-9_]`), matching
  the inputs the program meets in practice.
* Each `def` mirrors one function or statement block of `src/app.py`; the
  few `spec`-suffixed definitions instead transcribe the specification's
  words, for comparison with the code's behaviour.
-/

namespace OaiAudit

/-- The "no data" sentinel the program writes into derived columns
(`"[ SIN DATO ]"` in the source; the spec glosses it as "no data"). -/
def sentinel : String := "[ SIN DATO ]"

/-- Python `str.strip()`: surrounding whitespace removed. -/
def pyStrip (s : String) : String :=
  String.mk (((s.data.dropWhile Char.isWhitespace).reverse.dropWhile Char.isWhitespace).reverse)

/-- Worker for `str.split(';')`: `cur` holds the current piece reversed. -/
def splitSemiGo : List Char → List Char → List String
  | [], cur => [String.mk cur.reverse]
  | c :: rest, cur =>
    if c == ';' then String.mk cur.reverse :: splitSemiGo rest []
    else splitSemiGo rest (c :: cur)

/-- Python `str.split(';')`: split at every `;`, keeping empty pieces. -/
def pySplitSemi (s : String) : List String := splitSemiGo s.data []

/-- Python `str.startswith(pat)`. -/
def strStarts (s pat : String) : Bool := pat.data.isPrefixOf s.data

/-- Python `str.lower()` (ASCII model). -/
def strLower (s : String) : String := String.mk (s.data.map Char.toLower)

/-- Python truthiness of a pandas cell: a missing cell is the float `NaN`,
which is truthy in Python; a present string is truthy iff non-empty. -/
def pyTruthy : Option String → Bool
  | none => true
  | some s => s != ""

/-- Python `str(...)` rendering of a pandas cell: `str(float("nan")) = "nan"`. -/
def pyStr : Option String → String
  | none => "nan"
  | some s => s

/-- The guard `if not x or pd.isna(x)` used by the normalizers: true exactly
for a missing cell (`NaN`, caught by `pd.isna`) or an empty string (falsy). -/
def cellAbsentOrFalsy : Option String → Bool
  | none => true
  | some s => s == ""

/-! ### RepositoryIdentity resolver (`get_repo_info`, app.py lines 23-34) -/

/-- The distinct ways the remote call can fail; `get_repo_info` collapses all
of them with a single `except Exception` clause. -/
inductive OaiError
  | network
  | malformedResponse
  | protocolFault
deriving DecidableEq, Repr

/-- The remote `Identify` response: every attribute may be absent
(`getattr` with a default is used on each one the code reads). -/
structure Identify where
  repositoryName : Option String
  baseURL : Option String
  protocolVersion : Option String
  repositoryIdentifier : Option String
  adminEmail : Option String
deriving DecidableEq, Repr

/-- `get_repo_info(url)`: on success returns the Python dict built at
app.py lines 27-32 (keys in insertion order, values possibly `None`);
any exception yields `None`. -/
def get_repo_info (r : Except OaiError Identify) : Option (List (String × Option String)) :=
  match r with
  | .error _ => none
  | .ok idy => some [
      ("Nombre", some (idy.repositoryName.getD "Desconocido")),
      ("Base URL", some (idy.baseURL.getD "Desconocido")),
      ("Versión Protocolo", some (idy.protocolVersion.getD "2.0")),
      ("Repository ID", idy.repositoryIdentifier)]

/-! ### Format classifier (`detect_clean_format`, app.py lines 36-52) -/

/-- `pat in hay` for char lists: Python substring containment. -/
def hasSub (pat : List Char) : List Char → Bool
  | [] => pat.isPrefixOf []
  | c :: t => pat.isPrefixOf (c :: t) || hasSub pat t

/-- Python `pat in hay` on strings. -/
def strContains (hay pat : String) : Bool := hasSub pat.data hay.data

/-- `detect_clean_format(format_list_str)`: keyword groups checked in the
source's order over the lowercased cell. -/
def detect_clean_format (x : Option String) : String :=
  if cellAbsentOrFalsy x then sentinel
  else
    let text := strLower (pyStr x)
    if strContains text "pdf" || strContains text "application/pdf" then "PDF"
    else if strContains text "xml" then "XML"
    else if ["jpg", "jpeg", "png", "gif", "image"].any (fun k => strContains text k) then "Imagen"
    else if strContains text "word" || strContains text "doc" || strContains text "docx" then "Word"
    else if strContains text "excel" || strContains text "xls" then "Excel"
    else if strContains text "zip" || strContains text "rar" then "Archivo Comprimido"
    else if strContains text "mp4" || strContains text "video" then "Video"
    else if strContains text "mp3" || strContains text "audio" then "Audio"
    else "Otros/Desconocido"

/-! ### Year extractor (`extract_year_func`, app.py lines 54-78)

The regex `\b(?:19|20)\d{2}\b` is modelled positionally: `yearMatchAt s i`
says the pattern matches at char index `i`, and `re.findall`'s leftmost
match is the first position (scanning left to right) where it matches. -/

/-- Regex word character (`\w`), ASCII model. -/
def isWordChar (c : Char) : Bool := c.isAlphanum || c == '_'

/-- `\b(?:19|20)\d{2}\b` matches at index `i` of `s`: four digits starting
with 19 or 20, preceded and followed by a word boundary. -/
def yearMatchAt (s : List Char) (i : Nat) : Bool :=
  decide (i + 4 ≤ s.length) &&
  (decide (i = 0) || !isWordChar (s.getD (i - 1) ' ')) &&
  ((s.getD i ' ' == '1' && s.getD (i + 1) ' ' == '9') ||
   (s.getD i ' ' == '2' && s.getD (i + 1) ' ' == '0')) &&
  (s.getD (i + 2) ' ').isDigit && (s.getD (i + 3) ' ').isDigit &&
  !isWordChar (s.getD (i + 4) ' ')

/-- The four matched characters at index `i`. -/
def yearStrAt (s : List Char) (i : Nat) : String :=
  String.mk ((s.drop i).take 4)

/-- Left-to-right scan for the first index satisfying `p`, starting at `i`
with `fuel` positions left to try. -/
def findFirstFrom (p : Nat → Bool) : Nat → Nat → Option Nat
  | _, 0 => none
  | i, fuel + 1 => if p i then some i else findFirstFrom p (i + 1) fuel

/-- `extract_year_func(d)`: the guard, then `re.findall(pattern, text)` and
`matches[0]` (the leftmost match), else the sentinel. -/
def extract_year_func (d : Option String) : String :=
  if cellAbsentOrFalsy d then sentinel
  else
    match findFirstFrom (yearMatchAt (pyStr d).data) 0 (pyStr d).data.length with
    | some i => yearStrAt (pyStr d).data i
    | none => sentinel

/-! ### Primary type (`clean_split_type`, app.py lines 80-94) -/

/-- One step of Python `str.title()`: uppercase a letter that follows a
non-letter, lowercase a letter that follows a letter (ASCII model). -/
def pyTitleGo : Bool → List Char → List Char
  | _, [] => []
  | prevAlpha, c :: rest =>
    (if c.isAlpha then (if prevAlpha then c.toLower else c.toUpper) else c) ::
      pyTitleGo c.isAlpha rest

/-- Python `str.title()`. -/
def pyTitle (s : String) : String := String.mk (pyTitleGo false s.data)

/-- `clean_split_type(type_str)`: split on `;`, strip, drop technical tokens
(`info:eu-repo...`, `http...`, `puerl...`) and tokens shorter than 2 chars,
title-case the first survivor; `None` when nothing survives. -/
def clean_split_type (x : Option String) : Option String :=
  if cellAbsentOrFalsy x then none
  else
    let items := (pySplitSemi (pyStr x)).map pyStrip
    let valid := items.filter (fun i =>
      !(strStarts i "info:eu-repo" || strStarts i "http" || strStarts i "puerl"
        || decide (i.length < 2)))
    match valid with
    | [] => none
    | v :: _ => some (pyTitle v)

/-- The `primary_type` column: `df['type'].apply(clean_split_type)` followed
by `.fillna("[ SIN DATO ]")` (app.py line 233). -/
def primary_type_cell (x : Option String) : String :=
  (clean_split_type x).getD sentinel

/-- The `primary_lang` enrichment lambda (app.py line 240):
`str(x).split(';')[0] if x else "[ SIN DATO ]"`. Note the truthiness test,
not `pd.isna`: a missing cell (`NaN`) is truthy. -/
def primary_lang_cell (x : Option String) : String :=
  if pyTruthy x then (pySplitSemi (pyStr x)).headD "" else sentinel

/-! ### Harvest-limit selection and the high-volume gate (app.py lines 174-190) -/

/-- `st.session_state.repo_info.get('Repository ID', 'Desconocido')`: the
stored value (possibly `None`) when the key is present, else the default. -/
def repo_id_get (info : List (String × Option String)) : Option String :=
  match info.lookup "Repository ID" with
  | some v => v
  | none => some "Desconocido"

/-- Python `s == v` where `v` may be `None`: comparing a string with `None`
is `False`. -/
def pyStrEqOpt (s : String) : Option String → Bool
  | none => false
  | some t => s == t

/-- The limit-selection logic of app.py lines 174-190. `high_vol_mode` is the
mass-harvest checkbox; `security_check` the text entered by the operator;
`bigReq` the number-input value (widget range 5000-50000); `smallReq` the
slider value (widget range 100-5000). -/
def select_limit (repo_info : Option (List (String × Option String))) (high_vol_mode : Bool)
    (security_check : String) (bigReq smallReq : Nat) : Nat :=
  match repo_info with
  | none => 500
  | some info =>
    if high_vol_mode then
      if pyStrEqOpt (pyStrip security_check) (repo_id_get info) then bigReq else smallReq
    else smallReq

/-! ### DataFrame fragment

Only what the claims need from pandas: a frame is a set of column names plus
rows; each row is an association list of present cells. A column listed in
`cols` but absent from a row reads as a missing cell (`NaN`); reading a
column not in `cols` is a `KeyError`. -/

/-- One flat row: the cells actually present, in insertion order. -/
abbrev FRow : Type := List (String × String)

/-- A DataFrame fragment: declared columns plus rows. -/
structure Frame where
  cols : List String
  rows : List FRow
deriving Repr

/-- The cell of row `r` at column `c` (the column is assumed declared):
`none` models `NaN`. -/
def getCell (r : FRow) (c : String) : Option String :=
  List.lookup c r

/-- `x.isnull() | (x.astype(str).str.strip() == "")` on one cell: a missing
cell, or a present all-whitespace string. (A missing cell renders as `"nan"`
under `astype(str)`, which does not strip to empty — the `isnull` disjunct is
what catches it.) -/
def isMissingCell : Option String → Bool
  | none => true
  | some s => pyStrip s == ""

/-- `df[df[c].isnull() | (df[c].astype(str).str.strip() == "")]` as executed
at app.py lines 298-302: a `KeyError` when the column was never created. -/
def filterMissingCol (f : Frame) (c : String) : Except String Frame :=
  if c ∈ f.cols then
    .ok { f with rows := f.rows.filter (fun r => isMissingCell (getCell r c)) }
  else .error "KeyError"

/-- App.py lines 245-246: `if 'rights' not in df_full.columns:
df_full['rights'] = None` — declare the column; every row still lacks the
cell, so it reads as missing everywhere. -/
def addRightsDefault (f : Frame) : Frame :=
  if "rights" ∈ f.cols then f else { cols := f.cols ++ ["rights"], rows := f.rows }

/-! ### Frequency counting (`split_and_count_clean`, app.py lines 96-113) -/

/-- The noise test of app.py lines 105-106: token starts with `info:eu-repo`,
`http` or `Driver`, or equals the sentinel. -/
def isNoiseToken (t : String) : Bool :=
  strStarts t "info:eu-repo" || strStarts t "http" || strStarts t "Driver"
    || t == sentinel

/-- Split one joined cell on `;` and strip each piece (app.py line 103). -/
def cellTokens (cell : String) : List String :=
  (pySplitSemi cell).map pyStrip

/-- The countable tokens of a column: drop missing cells (`dropna`), split
and strip, keep non-noise tokens, in row order then token order. -/
def cleanTokens (cells : List (Option String)) : List String :=
  (cells.filterMap id).flatMap (fun s => (cellTokens s).filter (fun t => !isNoiseToken t))

/-- Worker for `tally`, structurally recursive on a fuel bound (the fuel
never runs out when it starts at the list's length). -/
def tallyFuel : Nat → List String → List (String × Nat)
  | _, [] => []
  | 0, _ :: _ => []
  | n + 1, x :: xs => (x, 1 + xs.count x) :: tallyFuel n (xs.filter (fun y => y != x))

/-- `collections.Counter` of a token list: keys in first-seen order, each
with its multiplicity. -/
def tally (xs : List String) : List (String × Nat) := tallyFuel xs.length xs

/-- Stable descending insertion by count: the incoming element (originally
earlier) goes before elements of equal count, after strictly larger ones.
This is `Counter.most_common`'s order: `sorted` is stable in Python. -/
def insertDesc (p : String × Nat) : List (String × Nat) → List (String × Nat)
  | [] => [p]
  | q :: qs => if q.2 ≤ p.2 then p :: q :: qs else q :: insertDesc p qs

/-- Stable sort, most frequent first. -/
def sortDesc : List (String × Nat) → List (String × Nat)
  | [] => []
  | p :: ps => insertDesc p (sortDesc ps)

/-- `split_and_count_clean(df, column, top_n)`: empty result when the column
is absent; otherwise tokens are gathered, counted, ordered most frequent
first (ties by first appearance) and truncated to `top_n`. -/
def split_and_count_clean (f : Frame) (column : String) (top_n : Nat) :
    List (String × Nat) :=
  if column ∈ f.cols then
    (sortDesc (tally (cleanTokens (f.rows.map (fun r => getCell r column))))).take top_n
  else []

/-- Modelled from the spec's words for the frequency aggregation
(`§4.4`/noise filter): identical to the source, except that only tokens
starting with `info:eu-repo` or `http` are excluded from counting. -/
def isNoiseTokenSpec (t : String) : Bool :=
  strStarts t "info:eu-repo" || strStarts t "http"

/-- The claim's version of the countable tokens (only the two documented
exclusions). -/
def cleanTokensSpec (cells : List (Option String)) : List String :=
  (cells.filterMap id).flatMap (fun s => (cellTokens s).filter (fun t => !isNoiseTokenSpec t))

/-- The claim's version of `split_and_count_clean`. -/
def split_and_count_spec (f : Frame) (column : String) (top_n : Nat) :
    List (String × Nat) :=
  if column ∈ f.cols then
    (sortDesc (tally (cleanTokensSpec (f.rows.map (fun r => getCell r column))))).take top_n
  else []

/-- Worker for `firstSeenOrder`, structurally recursive on a fuel bound. -/
def firstSeenFuel : Nat → List String → List String
  | _, [] => []
  | 0, _ :: _ => []
  | n + 1, x :: xs => x :: firstSeenFuel n (xs.filter (fun y => y != x))

/-- First-seen order of the distinct elements of a list (the order `Counter`
keys carry). -/
def firstSeenOrder (xs : List String) : List String := firstSeenFuel xs.length xs

/-! ### Harvester (`harvest_dynamic`, app.py lines 115-158) -/

/-- A raw OAI record as the iterator yields it: header fields plus metadata,
each field an ordered list of possibly-`None` values. -/
structure RawRecord where
  identifier : String
  datestamp : String
  metadata : List (String × List (Option String))
deriving Repr

/-- The flat projection of one record. -/
structure FlatRow where
  identifier : String
  datestamp : String
  fields : List (String × String)
  count_creators : Nat
  count_subjects : Nat
deriving DecidableEq, Repr

/-- App.py lines 139-143 for one metadata field: skip an empty value list,
drop `None` values, skip the field if nothing survives, else join with
`"; "`. -/
def joinField : String × List (Option String) → Option (String × String)
  | (k, values) =>
    if values.isEmpty then none
    else
      let clean := values.filterMap id
      if clean.isEmpty then none else some (k, String.intercalate "; " clean)

/-- App.py lines 134-149: build the flat row for one record.
`count_creators` / `count_subjects` use `record.metadata.get(key, [])` on
the original (pre-join, `None`-included) value lists. -/
def flattenRecord (r : RawRecord) : FlatRow :=
  { identifier := r.identifier
    datestamp := r.datestamp
    fields := r.metadata.filterMap joinField
    count_creators := ((r.metadata.lookup "creator").getD []).length
    count_subjects := ((r.metadata.lookup "subject").getD []).length }

/-- What one pull from the record iterator can produce: a record, or an
exception (transport or parse failure). -/
inductive HEvent
  | yield (r : RawRecord)
  | fail
deriving Repr

/-- The harvest loop: each pull either raises (→ the `except` clause returns
an empty DataFrame, modelled `none`) or yields record number `i`; the loop
breaks once `i ≥ limit` (the record just pulled is discarded), and source
exhaustion returns what was gathered. -/
def harvestGo (limit : Nat) : List HEvent → Nat → List FlatRow → Option (List FlatRow)
  | [], _, acc => some acc
  | .fail :: _, _, _ => none
  | .yield r :: rest, i, acc =>
    if limit ≤ i then some acc
    else harvestGo limit rest (i + 1) (acc ++ [flattenRecord r])

/-- `harvest_dynamic(url, limit)` with the remote interaction abstracted as
the event list the iterator produces: `none` is the `except` branch (empty
DataFrame plus an error banner), `some rows` a completed harvest. -/
def harvest_dynamic (events : List HEvent) (limit : Nat) : Option (List FlatRow) :=
  harvestGo limit events 0 []

/-! ### Facet filter engine (app.py lines 286-296) -/

/-- One enriched row, restricted to the four normalized facet columns the
multiselect filters read. -/
structure ERow where
  year_extracted : String
  primary_type : String
  primary_lang : String
  clean_format : String
deriving DecidableEq, Repr

/-- App.py lines 286-296: apply each facet only when its selection list is
non-empty (`if sel_years:` — Python list truthiness), via
`df[df[col].isin(sel)]`. -/
def apply_facets (rows : List ERow) (sel_years sel_types sel_langs sel_formats : List String) :
    List ERow :=
  let d1 := if sel_years.isEmpty then rows
            else rows.filter (fun r => sel_years.contains r.year_extracted)
  let d2 := if sel_types.isEmpty then d1
            else d1.filter (fun r => sel_types.contains r.primary_type)
  let d3 := if sel_langs.isEmpty then d2
            else d2.filter (fun r => sel_langs.contains r.primary_lang)
  if sel_formats.isEmpty then d3
  else d3.filter (fun r => sel_formats.contains r.clean_format)

/-! ### Completeness (app.py lines 383-394) -/

/-- `cols_to_exclude` of app.py line 386. -/
def cols_to_exclude : List String :=
  ["identifier", "datestamp", "count_creators", "count_subjects", "year_extracted",
   "clean_format", "primary_type", "primary_lang", "rights"]

/-- The retained metadata columns (`meta_cols`, app.py line 387). -/
def meta_cols (f : Frame) (excluded : List String) : List String :=
  f.cols.filter (fun c => !excluded.contains c)

/-- The completeness computation of app.py lines 389-390, guarded by
`if not df.empty:` — no report at all on an empty view. For a non-empty view,
`df[meta_cols].notnull().mean().mul(100)`: per retained column,
100 × (number of rows whose cell is present) / (number of rows).
Percentages are modelled as exact rationals. -/
def completenessReport (f : Frame) (excluded : List String) :
    Option (List (String × ℚ)) :=
  if f.rows.isEmpty then none
  else some ((meta_cols f excluded).map (fun c =>
    (c, 100 * ((f.rows.filter (fun r => (getCell r c).isSome)).length : ℚ) / f.rows.length)))

/-! ## Helper lemmas -/

theorem mem_facet_step (l : List ERow) (sel : List String) (g : ERow → String) (r : ERow) :
    (r ∈ if sel.isEmpty then l else l.filter (fun x => sel.contains (g x))) ↔
      r ∈ l ∧ (sel = [] ∨ g r ∈ sel) := by
  cases sel with
  | nil => simp
  | cons a as => simp [List.mem_filter]

theorem harvestGo_fail (limit : Nat) :
    ∀ (recs : List RawRecord) (rest : List HEvent) (i : Nat) (acc : List FlatRow),
      i + recs.length ≤ limit →
      harvestGo limit (recs.map HEvent.yield ++ HEvent.fail :: rest) i acc = none := by
  intro recs
  induction recs with
  | nil => intro rest i acc _; rfl
  | cons r rs ih =>
    intro rest i acc h
    simp only [List.length_cons] at h
    simp only [List.map_cons, List.cons_append, harvestGo]
    rw [if_neg (by omega)]
    exact ih rest (i + 1) _ (by omega)

theorem findFirstFrom_eq_none (p : Nat → Bool) :
    ∀ (fuel i : Nat), findFirstFrom p i fuel = none ↔
      ∀ j, i ≤ j → j < i + fuel → p j = false := by
  intro fuel
  induction fuel with
  | zero =>
    intro i
    constructor
    · intro _ j h1 h2; omega
    · intro _; rfl
  | succ n ih =>
    intro i
    simp only [findFirstFrom]
    cases hp : p i with
    | true =>
      rw [if_pos rfl]
      constructor
      · intro h; cases h
      · intro h
        have := h i (Nat.le_refl i) (by omega)
        rw [hp] at this; cases this
    | false =>
      rw [if_neg Bool.false_ne_true]
      rw [ih (i + 1)]
      constructor
      · intro h j h1 h2
        rcases Nat.eq_or_lt_of_le h1 with rfl | hlt
        · exact hp
        · exact h j hlt (by omega)
      · intro h j h1 h2
        exact h j (by omega) (by omega)

theorem findFirstFrom_some_true (p : Nat → Bool) :
    ∀ (fuel i j : Nat), findFirstFrom p i fuel = some j → p j = true := by
  intro fuel
  induction fuel with
  | zero => intro i j h; cases h
  | succ n ih =>
    intro i j h
    simp only [findFirstFrom] at h
    cases hp : p i with
    | true =>
      rw [if_pos hp] at h
      injection h with h
      rw [← h]; exact hp
    | false =>
      rw [if_neg (by simp [hp])] at h
      exact ih (i + 1) j h

theorem findFirstFrom_first (p : Nat → Bool) :
    ∀ (fuel i j : Nat), i ≤ j → j < i + fuel → p j = true →
      (∀ k, i ≤ k → k < j → p k = false) →
      findFirstFrom p i fuel = some j := by
  intro fuel
  induction fuel with
  | zero => intro i j h1 h2; omega
  | succ n ih =>
    intro i j h1 h2 hp hmin
    simp only [findFirstFrom]
    rcases Nat.eq_or_lt_of_le h1 with rfl | hlt
    · rw [if_pos hp]
    · rw [if_neg (by simp [hmin i (Nat.le_refl i) hlt])]
      exact ih (i + 1) j hlt (by omega) hp (fun k hk1 hk2 => hmin k (by omega) hk2)

theorem yearMatchAt_len {s : List Char} {i : Nat} (h : yearMatchAt s i = true) :
    i + 4 ≤ s.length := by
  unfold yearMatchAt at h
  simp only [Bool.and_eq_true, decide_eq_true_eq] at h
  exact h.1.1.1.1.1

theorem yearMatchAt_false_of_big {s : List Char} {i : Nat} (h : s.length < i + 4) :
    yearMatchAt s i = false := by
  unfold yearMatchAt
  rw [decide_eq_false (by omega)]
  simp

theorem yearStrAt_ne_sentinel {s : List Char} {i : Nat} (h : yearMatchAt s i = true) :
    yearStrAt s i ≠ sentinel := by
  intro he
  have hlen : i + 4 ≤ s.length := yearMatchAt_len h
  have h4 : (yearStrAt s i).length = 4 := by
    simp [yearStrAt, String.length]
    omega
  rw [he] at h4
  simp [sentinel, String.length] at h4

theorem joinField_key {kv : String × List (Option String)} {p : String × String}
    (h : joinField kv = some p) : p.1 = kv.1 := by
  obtain ⟨k, vs⟩ := kv
  simp only [joinField] at h
  split at h
  · cases h
  · split at h
    · cases h
    · injection h with h
      rw [← h]

theorem lookup_filterMap_none (k : String) :
    ∀ l : List (String × List (Option String)),
      k ∉ l.map Prod.fst →
      (l.filterMap joinField).lookup k = none := by
  intro l
  induction l with
  | nil => intro _; rfl
  | cons x t ih =>
    intro hk
    simp only [List.map_cons, List.mem_cons] at hk
    push_neg at hk
    rw [List.filterMap_cons]
    cases hj : joinField x with
    | none => exact ih hk.2
    | some p =>
      obtain ⟨pk, pv⟩ := p
      have hpk : pk = x.1 := joinField_key hj
      simp only [List.lookup]
      rw [show (k == pk) = false from beq_eq_false_iff_ne.mpr (hpk ▸ hk.1)]
      exact ih hk.2

theorem lookup_filterMap_join (k : String) :
    ∀ l : List (String × List (Option String)),
      (l.map Prod.fst).Nodup →
      (l.filterMap joinField).lookup k =
        (l.lookup k).bind (fun vs => (joinField (k, vs)).map Prod.snd) := by
  intro l
  induction l with
  | nil => intro _; rfl
  | cons x t ih =>
    obtain ⟨k', vs⟩ := x
    intro hnd
    simp only [List.map_cons, List.nodup_cons] at hnd
    rw [List.filterMap_cons]
    by_cases hk : k = k'
    · subst hk
      cases hj : joinField (k, vs) with
      | none =>
        rw [lookup_filterMap_none k t hnd.1]
        simp [List.lookup, hj]
      | some p =>
        obtain ⟨pk, pv⟩ := p
        have hpk : pk = k := joinField_key hj
        subst hpk
        simp [List.lookup, hj]
    · have hbeq : (k == k') = false := beq_eq_false_iff_ne.mpr hk
      cases hj : joinField (k', vs) with
      | none =>
        rw [ih hnd.2]
        simp [List.lookup, hbeq]
      | some p =>
        obtain ⟨pk, pv⟩ := p
        have hpk : pk = k' := joinField_key hj
        subst hpk
        simp only [List.lookup, hbeq]
        exact ih hnd.2

theorem tallyFuel_count :
    ∀ (fuel : Nat) (xs : List String), xs.length ≤ fuel →
      ∀ p ∈ tallyFuel fuel xs, p.2 = xs.count p.1 ∧ p.1 ∈ xs := by
  intro fuel
  induction fuel with
  | zero =>
    intro xs hlen p hp
    cases xs with
    | nil => cases hp
    | cons x t => simp at hlen
  | succ n ih =>
    intro xs hlen p hp
    cases xs with
    | nil => cases hp
    | cons x t =>
      simp only [tallyFuel] at hp
      rcases List.mem_cons.mp hp with rfl | hp'
      · refine ⟨?_, List.mem_cons_self x t⟩
        show 1 + List.count x t = List.count x (x :: t)
        rw [List.count_cons_self]
        omega
      · have hlen' : (t.filter (fun y => y != x)).length ≤ n := by
          have h1 := List.length_filter_le (fun y => y != x) t
          simp only [List.length_cons] at hlen
          omega
        obtain ⟨hc, hm⟩ := ih _ hlen' p hp'
        have hmem := List.mem_filter.mp hm
        have hne : (p.1 != x) = true := hmem.2
        refine ⟨?_, List.mem_cons_of_mem x hmem.1⟩
        have h1 : List.count p.1 (List.filter (fun y => y != x) t) = List.count p.1 t :=
          List.count_filter hne
        rw [hc, h1, List.count_cons]
        have h2 : (x == p.1) = false := by
          simp only [bne_iff_ne, ne_eq] at hne
          exact beq_eq_false_iff_ne.mpr (fun h => hne h.symm)
        rw [h2]
        simp

theorem firstSeenFuel_mem (v : String) :
    ∀ (fuel : Nat) (xs : List String), xs.length ≤ fuel →
      (v ∈ firstSeenFuel fuel xs ↔ v ∈ xs) := by
  intro fuel
  induction fuel with
  | zero =>
    intro xs hlen
    cases xs with
    | nil => simp [firstSeenFuel]
    | cons x t => simp at hlen
  | succ n ih =>
    intro xs hlen
    cases xs with
    | nil => simp [firstSeenFuel]
    | cons x t =>
      have hlen' : (t.filter (fun y => y != x)).length ≤ n := by
        have h1 := List.length_filter_le (fun y => y != x) t
        simp only [List.length_cons] at hlen
        omega
      simp only [firstSeenFuel, List.mem_cons, ih _ hlen', List.mem_filter]
      constructor
      · rintro (rfl | ⟨hm, _⟩)
        · exact Or.inl rfl
        · exact Or.inr hm
      · rintro (rfl | hm)
        · exact Or.inl rfl
        · by_cases hvx : v = x
          · exact Or.inl hvx
          · exact Or.inr ⟨hm, by simpa using hvx⟩

theorem firstSeenFuel_nodup :
    ∀ (fuel : Nat) (xs : List String), xs.length ≤ fuel →
      (firstSeenFuel fuel xs).Nodup := by
  intro fuel
  induction fuel with
  | zero =>
    intro xs hlen
    cases xs with
    | nil => exact List.nodup_nil
    | cons x t => simp at hlen
  | succ n ih =>
    intro xs hlen
    cases xs with
    | nil => exact List.nodup_nil
    | cons x t =>
      have hlen' : (t.filter (fun y => y != x)).length ≤ n := by
        have h1 := List.length_filter_le (fun y => y != x) t
        simp only [List.length_cons] at hlen
        omega
      simp only [firstSeenFuel, List.nodup_cons]
      refine ⟨?_, ih _ hlen'⟩
      intro hx
      have := (firstSeenFuel_mem x n _ hlen').mp hx
      simp [List.mem_filter] at this

theorem tallyFuel_keys :
    ∀ (fuel : Nat) (xs : List String), xs.length ≤ fuel →
      (tallyFuel fuel xs).map Prod.fst = firstSeenFuel fuel xs := by
  intro fuel
  induction fuel with
  | zero =>
    intro xs hlen
    cases xs with
    | nil => rfl
    | cons x t => simp at hlen
  | succ n ih =>
    intro xs hlen
    cases xs with
    | nil => rfl
    | cons x t =>
      have hlen' : (t.filter (fun y => y != x)).length ≤ n := by
        have h1 := List.length_filter_le (fun y => y != x) t
        simp only [List.length_cons] at hlen
        omega
      simp only [tallyFuel, firstSeenFuel, List.map_cons]
      rw [ih _ hlen']

theorem tally_count {xs : List String} {p : String × Nat} (hp : p ∈ tally xs) :
    p.2 = xs.count p.1 ∧ p.1 ∈ xs :=
  tallyFuel_count xs.length xs (Nat.le_refl _) p hp

theorem tally_keys (xs : List String) :
    (tally xs).map Prod.fst = firstSeenOrder xs :=
  tallyFuel_keys xs.length xs (Nat.le_refl _)

theorem firstSeen_mem (v : String) (xs : List String) :
    v ∈ firstSeenOrder xs ↔ v ∈ xs :=
  firstSeenFuel_mem v xs.length xs (Nat.le_refl _)

theorem firstSeen_nodup (xs : List String) : (firstSeenOrder xs).Nodup :=
  firstSeenFuel_nodup xs.length xs (Nat.le_refl _)

theorem insertDesc_perm (a : String × Nat) :
    ∀ l : List (String × Nat), (insertDesc a l).Perm (a :: l) := by
  intro l
  induction l with
  | nil => exact List.Perm.refl _
  | cons q qs ih =>
    unfold insertDesc
    by_cases hle : q.2 ≤ a.2
    · rw [if_pos hle]
    · rw [if_neg hle]
      exact (List.Perm.cons q ih).trans (List.Perm.swap a q qs)

theorem sortDesc_perm : ∀ l : List (String × Nat), (sortDesc l).Perm l := by
  intro l
  induction l with
  | nil => exact List.Perm.refl _
  | cons p ps ih =>
    exact (insertDesc_perm p (sortDesc ps)).trans (List.Perm.cons p ih)

theorem insertDesc_pairwise (R : (String × Nat) → (String × Nat) → Prop)
    (a : String × Nat) :
    ∀ l : List (String × Nat),
      (∀ x ∈ l, R a x) →
      l.Pairwise (fun p q => q.2 < p.2 ∨ (p.2 = q.2 ∧ R p q)) →
      (insertDesc a l).Pairwise (fun p q => q.2 < p.2 ∨ (p.2 = q.2 ∧ R p q)) := by
  intro l
  induction l with
  | nil => intro _ _; exact List.pairwise_singleton _ a
  | cons q qs ih =>
    intro hRa hpw
    rw [List.pairwise_cons] at hpw
    obtain ⟨hq, hqs⟩ := hpw
    unfold insertDesc
    by_cases hle : q.2 ≤ a.2
    · rw [if_pos hle]
      refine List.Pairwise.cons ?_ (List.Pairwise.cons hq hqs)
      intro x hx
      rcases List.mem_cons.mp hx with rfl | hx'
      · rcases Nat.lt_or_ge x.2 a.2 with h | h
        · exact Or.inl h
        · exact Or.inr ⟨Nat.le_antisymm h hle, hRa x (List.mem_cons_self x qs)⟩
      · have hSx := hq x hx'
        rcases hSx with h | h
        · exact Or.inl (by omega)
        · rcases Nat.lt_or_ge x.2 a.2 with h2 | h2
          · exact Or.inl h2
          · exact Or.inr ⟨by omega, hRa x (List.mem_cons_of_mem q hx')⟩
    · rw [if_neg hle]
      refine List.Pairwise.cons ?_ (ih (fun x hx => hRa x (List.mem_cons_of_mem q hx)) hqs)
      intro x hx
      have hx2 : x ∈ a :: qs := (insertDesc_perm a qs).mem_iff.mp hx
      rcases List.mem_cons.mp hx2 with rfl | hx'
      · exact Or.inl (by omega)
      · exact hq x hx'

theorem sortDesc_pairwise (R : (String × Nat) → (String × Nat) → Prop) :
    ∀ l : List (String × Nat), l.Pairwise R →
      (sortDesc l).Pairwise (fun p q => q.2 < p.2 ∨ (p.2 = q.2 ∧ R p q)) := by
  intro l
  induction l with
  | nil => intro _; exact List.Pairwise.nil
  | cons p ps ih =>
    intro hpw
    rw [List.pairwise_cons] at hpw
    refine insertDesc_pairwise R p (sortDesc ps) ?_ (ih hpw.2)
    intro x hx
    exact hpw.1 x ((sortDesc_perm ps).mem_iff.mp hx)

theorem insertDesc_filter_eq (a : String × Nat) :
    ∀ l : List (String × Nat),
      (insertDesc a l).filter (fun p => p.2 == a.2) =
        a :: l.filter (fun p => p.2 == a.2) := by
  intro l
  induction l with
  | nil => simp [insertDesc]
  | cons q qs ih =>
    unfold insertDesc
    by_cases hle : q.2 ≤ a.2
    · rw [if_pos hle]
      simp [List.filter_cons]
    · rw [if_neg hle]
      have hq : (q.2 == a.2) = false := by
        apply beq_eq_false_iff_ne.mpr
        omega
      simp [List.filter_cons, hq, ih]

theorem insertDesc_filter_ne (a : String × Nat) (c : Nat) (hc : a.2 ≠ c) :
    ∀ l : List (String × Nat),
      (insertDesc a l).filter (fun p => p.2 == c) = l.filter (fun p => p.2 == c) := by
  intro l
  induction l with
  | nil => simp [insertDesc, beq_eq_false_iff_ne.mpr hc]
  | cons q qs ih =>
    unfold insertDesc
    by_cases hle : q.2 ≤ a.2
    · rw [if_pos hle]
      simp [List.filter_cons, beq_eq_false_iff_ne.mpr hc]
    · rw [if_neg hle]
      by_cases hq : (q.2 == c) = true
      · simp [List.filter_cons, hq, ih]
      · rw [Bool.not_eq_true] at hq
        simp [List.filter_cons, hq, ih]

theorem sortDesc_filter (c : Nat) :
    ∀ l : List (String × Nat),
      (sortDesc l).filter (fun p => p.2 == c) = l.filter (fun p => p.2 == c) := by
  intro l
  induction l with
  | nil => rfl
  | cons p ps ih =>
    show (insertDesc p (sortDesc ps)).filter (fun q => q.2 == c) = _
    by_cases hp : p.2 = c
    · subst hp
      rw [insertDesc_filter_eq p (sortDesc ps)]
      simp [List.filter_cons, ih]
    · rw [insertDesc_filter_ne p c hp (sortDesc ps)]
      simp [List.filter_cons, beq_eq_false_iff_ne.mpr hp, ih]

theorem filterPre {l₁ l₂ : List (String × Nat)} (p : String × Nat → Bool)
    (h : l₁ <+: l₂) : l₁.filter p <+: l₂.filter p := by
  obtain ⟨t, rfl⟩ := h
  exact ⟨t.filter p, (List.filter_append _ _).symm⟩

theorem takePre (n : Nat) (l : List (String × Nat)) : l.take n <+: l :=
  ⟨l.drop n, List.take_append_drop n l⟩

theorem cleanTokens_not_noise {cells : List (Option String)} {v : String}
    (h : v ∈ cleanTokens cells) : isNoiseToken v = false := by
  simp only [cleanTokens, List.mem_flatMap, List.mem_filter] at h
  obtain ⟨s, _, _, hv⟩ := h
  simpa using hv

theorem pairwiseTrue (l : List (String × Nat)) : l.Pairwise (fun _ _ => True) := by
  induction l with
  | nil => exact List.Pairwise.nil
  | cons x t ih => exact List.Pairwise.cons (fun _ _ => trivial) ih

theorem lookup_map_pair (g : String → ℚ) (c : String) :
    ∀ l : List String,
      (l.map (fun x => (x, g x))).lookup c = if c ∈ l then some (g c) else none := by
  intro l
  induction l with
  | nil => simp
  | cons x t ih =>
    simp only [List.map_cons, List.lookup, List.mem_cons]
    by_cases hx : c = x
    · subst hx
      simp
    · rw [show (c == x) = false from beq_eq_false_iff_ne.mpr hx, ih]
      simp [hx]

/-! ## Claim theorems -/

/-- C1: the facet filter engine is a conjunction across facets — a row is in
the filtered view iff it is in the sample and, per facet, either the
selection is empty (no restriction) or the row's normalized value is
selected; with all selections empty the full sample is returned. -/
theorem C1_facet_conjunction :
    (∀ (rows : List ERow) (ys ts ls fs : List String) (r : ERow),
      r ∈ apply_facets rows ys ts ls fs ↔
        r ∈ rows ∧ (ys = [] ∨ r.year_extracted ∈ ys) ∧ (ts = [] ∨ r.primary_type ∈ ts)
          ∧ (ls = [] ∨ r.primary_lang ∈ ls) ∧ (fs = [] ∨ r.clean_format ∈ fs)) ∧
    ∀ rows : List ERow, apply_facets rows [] [] [] [] = rows := by
  constructor
  · intro rows ys ts ls fs r
    unfold apply_facets
    rw [mem_facet_step _ fs (fun x => x.clean_format) r,
        mem_facet_step _ ls (fun x => x.primary_lang) r,
        mem_facet_step _ ts (fun x => x.primary_type) r,
        mem_facet_step _ ys (fun x => x.year_extracted) r]
    tauto
  · intro rows
    simp [apply_facets]

/-- C4: `extract_year_func` returns the first (leftmost) word-bounded 4-digit
run starting with 19 or 20, the sentinel when no such run exists or the
input is absent; concretely the embedded `2017` of `412230132017` is not
matched, and the first of several matches wins. -/
theorem C4_extract_year_first_match :
    (∀ s : String,
      (extract_year_func (some s) = sentinel ↔ ∀ i, yearMatchAt s.data i = false) ∧
      ∀ i, yearMatchAt s.data i = true → (∀ j, j < i → yearMatchAt s.data j = false) →
        extract_year_func (some s) = yearStrAt s.data i) ∧
    extract_year_func none = sentinel ∧
    extract_year_func (some "id 412230132017 filed") = sentinel ∧
    extract_year_func (some "Published in 2017, updated 2019") = "2017" := by
  refine ⟨?_, rfl, by decide, by decide⟩
  intro s
  by_cases hs : s = ""
  · subst hs
    constructor
    · constructor
      · intro _ i
        exact yearMatchAt_false_of_big (by simp)
      · intro _; rfl
    · intro i hi _
      exfalso
      rw [yearMatchAt_false_of_big (by simp)] at hi
      cases hi
  · have hEF : extract_year_func (some s) =
        match findFirstFrom (yearMatchAt s.data) 0 s.data.length with
        | some i => yearStrAt s.data i
        | none => sentinel := by
      unfold extract_year_func
      rw [if_neg (by simp [cellAbsentOrFalsy, hs])]
      rfl
    constructor
    · constructor
      · intro hsent i
        rw [hEF] at hsent
        cases hf : findFirstFrom (yearMatchAt s.data) 0 s.data.length with
        | none =>
          rcases Nat.lt_or_ge i s.data.length with hlt | hge
          · exact ((findFirstFrom_eq_none _ _ _).mp hf) i (Nat.zero_le i) (by omega)
          · exact yearMatchAt_false_of_big (by omega)
        | some j =>
          rw [hf] at hsent
          exact absurd hsent (yearStrAt_ne_sentinel (findFirstFrom_some_true _ _ _ _ hf))
      · intro hall
        rw [hEF]
        cases hf : findFirstFrom (yearMatchAt s.data) 0 s.data.length with
        | none => rfl
        | some j =>
          exfalso
          have hj := findFirstFrom_some_true _ _ _ _ hf
          rw [hall j] at hj
          cases hj
    · intro i hi hmin
      rw [hEF, findFirstFrom_first (yearMatchAt s.data) s.data.length 0 i (Nat.zero_le i)
        (by have := yearMatchAt_len hi; omega) hi (fun k _ hk => hmin k hk)]

/-- Witness for C4: in "Published in 2017, updated 2019" the pattern matches
at index 13 and nowhere earlier, and the extractor returns that first match. -/
theorem C4_extract_year_first_match_witness :
    yearMatchAt ("Published in 2017, updated 2019").data 13 = true ∧
    (∀ j, j < 13 → yearMatchAt ("Published in 2017, updated 2019").data j = false) ∧
    extract_year_func (some "Published in 2017, updated 2019")
      = yearStrAt ("Published in 2017, updated 2019").data 13 := by
  refine ⟨by decide, by decide, ?_⟩
  exact (C4_extract_year_first_match.1 "Published in 2017, updated 2019").2 13
    (by decide) (by decide)

/-- C2 (code bug): the `primary_lang` lambda tests Python truthiness, and a
missing pandas cell is the truthy float `NaN`, so an absent language cell
yields the string `"nan"` — a string rendering of the missing value, not the
sentinel. The other normalizers do return the sentinel on an absent cell. -/
theorem C2_primary_lang_nan :
    primary_lang_cell none = "nan" ∧ "nan" ≠ sentinel ∧
    extract_year_func none = sentinel ∧ detect_clean_format none = sentinel ∧
    primary_type_cell none = sentinel ∧ primary_lang_cell (some "") = sentinel := by
  exact ⟨rfl, by decide, rfl, rfl, rfl, rfl⟩

/-- C3 (code bug): when no record in the sample has a `description` field the
column is never created, and `df['description']` in the only-missing filter
raises `KeyError` instead of selecting all rows; the `rights` flag is safe
because the pipeline pre-declares the `rights` column, so every row's cell
reads as missing and all rows are kept. -/
theorem C3_description_filter_keyerror :
    filterMissingCol ⟨["identifier", "datestamp", "title"],
        [[("identifier", "a"), ("datestamp", "d"), ("title", "t")]]⟩ "description"
      = .error "KeyError" ∧
    (filterMissingCol (addRightsDefault ⟨["identifier", "title"],
        [[("identifier", "a"), ("title", "t")], [("identifier", "b")]]⟩) "rights").map Frame.rows
      = .ok [[("identifier", "a"), ("title", "t")], [("identifier", "b")]] := by
  exact ⟨rfl, rfl⟩

/-- C6: flattening drops `None` values of a multi-valued field before
joining with `"; "`, omits the field entirely (no empty-string cell) when no
value survives or the field is absent, and takes `count_creators` /
`count_subjects` from the original pre-join value sequences. -/
theorem C6_flatten_fields :
    ∀ r : RawRecord, (r.metadata.map Prod.fst).Nodup →
      (∀ key vs, r.metadata.lookup key = some vs →
        (flattenRecord r).fields.lookup key =
          (if (vs.filterMap id).isEmpty then none
           else some (String.intercalate "; " (vs.filterMap id)))) ∧
      (∀ key, r.metadata.lookup key = none →
        (flattenRecord r).fields.lookup key = none) ∧
      (flattenRecord r).count_creators = ((r.metadata.lookup "creator").getD []).length ∧
      (flattenRecord r).count_subjects = ((r.metadata.lookup "subject").getD []).length ∧
      (flattenRecord r).identifier = r.identifier ∧
      (flattenRecord r).datestamp = r.datestamp := by
  intro r hnd
  refine ⟨?_, ?_, rfl, rfl, rfl, rfl⟩
  · intro key vs hvs
    have h0 := lookup_filterMap_join key r.metadata hnd
    rw [hvs] at h0
    have h : (r.metadata.filterMap joinField).lookup key
        = (joinField (key, vs)).map Prod.snd := h0
    rw [show (flattenRecord r).fields = r.metadata.filterMap joinField from rfl, h]
    simp only [joinField]
    by_cases h1 : vs.isEmpty
    · rw [if_pos h1]
      have : vs = [] := List.isEmpty_iff.mp h1
      subst this
      rfl
    · rw [if_neg h1]
      by_cases h2 : (vs.filterMap id).isEmpty
      · rw [if_pos h2, if_pos h2]
        rfl
      · rw [if_neg h2, if_neg h2]
        rfl
  · intro key hkey
    have h := lookup_filterMap_join key r.metadata hnd
    rw [hkey] at h
    exact h

/-- Witness for C6: a record with a `None` inside `creator`, an all-`None`
`subject`, an empty `format` list and a plain `title`; the flat row joins
the surviving creators, omits `subject` and `format`, and counts the
original sequences. -/
theorem C6_flatten_fields_witness :
    (([("creator", [some "A", none, some "B"]), ("subject", [(none : Option String)]),
       ("title", [some "T"]), ("format", [])].map Prod.fst).Nodup) ∧
    (flattenRecord ⟨"i1", "d1",
        [("creator", [some "A", none, some "B"]), ("subject", [none]),
         ("title", [some "T"]), ("format", [])]⟩).fields.lookup "creator" = some "A; B" ∧
    (flattenRecord ⟨"i1", "d1",
        [("creator", [some "A", none, some "B"]), ("subject", [none]),
         ("title", [some "T"]), ("format", [])]⟩).fields.lookup "subject" = none ∧
    (flattenRecord ⟨"i1", "d1",
        [("creator", [some "A", none, some "B"]), ("subject", [none]),
         ("title", [some "T"]), ("format", [])]⟩).count_creators = 3 ∧
    (flattenRecord ⟨"i1", "d1",
        [("creator", [some "A", none, some "B"]), ("subject", [none]),
         ("title", [some "T"]), ("format", [])]⟩).count_subjects = 1 := by
  have h := C6_flatten_fields ⟨"i1", "d1",
    [("creator", [some "A", none, some "B"]), ("subject", [none]),
     ("title", [some "T"]), ("format", [])]⟩ (by decide)
  refine ⟨by decide, ?_, ?_, ?_, ?_⟩
  · exact (h.1 "creator" [some "A", none, some "B"] (by decide)).trans (by decide)
  · exact (h.1 "subject" [none] (by decide)).trans (by decide)
  · rw [h.2.2.1]; decide
  · rw [h.2.2.2.1]; decide

/-- C7 counterexample: the code's noise filter also excludes tokens starting
with "Driver" (and tokens equal to the sentinel), which the claim's
"exactly info:eu-repo or http" filter does not — on a view whose only type
cell is "Driver" the code counts nothing while the claim predicts
("Driver", 1). -/
theorem C7_noise_filter_cex :
    split_and_count_clean ⟨["type"], [[("type", "Driver")]]⟩ "type" 20 = [] ∧
    split_and_count_spec ⟨["type"], [[("type", "Driver")]]⟩ "type" 20 = [("Driver", 1)] ∧
    split_and_count_clean ⟨["type"], [[("type", "Driver")]]⟩ "type" 20
      ≠ split_and_count_spec ⟨["type"], [[("type", "Driver")]]⟩ "type" 20 := by
  refine ⟨rfl, rfl, ?_⟩
  decide

/-- C7 amended: frequency splits each non-missing cell on ';', trims each
token, excludes exactly the tokens that start with 'info:eu-repo', 'http' or
'Driver' or equal the '[ SIN DATO ]' sentinel, counts the remainder, and
returns (value, count) pairs — counts are exact multiplicities, keys are
distinct, ordered most frequent first with ties in first-seen order (any
fixed count's entries form a prefix of their first-seen sequence), truncated
to topN (and only truncation at topN can drop a token). -/
theorem C7_frequency_table :
    ∀ (f : Frame) (column : String) (n : Nat), column ∈ f.cols →
      (split_and_count_clean f column n).Pairwise (fun p q => q.2 ≤ p.2) ∧
      (∀ p ∈ split_and_count_clean f column n,
        p.2 = (cleanTokens (f.rows.map (fun r => getCell r column))).count p.1 ∧
        p.1 ∈ cleanTokens (f.rows.map (fun r => getCell r column)) ∧
        isNoiseToken p.1 = false) ∧
      ((split_and_count_clean f column n).map Prod.fst).Nodup ∧
      (split_and_count_clean f column n).length
        = min n (firstSeenOrder (cleanTokens (f.rows.map (fun r => getCell r column)))).length ∧
      (∀ v ∈ cleanTokens (f.rows.map (fun r => getCell r column)),
        (∃ c, (v, c) ∈ split_and_count_clean f column n) ∨
          (split_and_count_clean f column n).length = n) ∧
      (∀ c : Nat, (split_and_count_clean f column n).filter (fun p => p.2 == c)
        <+: (tally (cleanTokens (f.rows.map (fun r => getCell r column)))).filter
              (fun p => p.2 == c)) ∧
      (tally (cleanTokens (f.rows.map (fun r => getCell r column)))).map Prod.fst
        = firstSeenOrder (cleanTokens (f.rows.map (fun r => getCell r column))) := by
  intro f column n hcol
  obtain ⟨toks, htoks⟩ :
      ∃ t, cleanTokens (f.rows.map (fun r => getCell r column)) = t := ⟨_, rfl⟩
  rw [htoks]
  have hdef : split_and_count_clean f column n = (sortDesc (tally toks)).take n := by
    unfold split_and_count_clean
    rw [if_pos hcol, htoks]
  refine ⟨?_, ?_, ?_, ?_, ?_, ?_, tally_keys toks⟩
  · rw [hdef]
    have h1 := sortDesc_pairwise (fun _ _ => True) (tally toks) (pairwiseTrue _)
    have h2 : (sortDesc (tally toks)).Pairwise (fun p q => q.2 ≤ p.2) :=
      h1.imp (fun h => by rcases h with h | h <;> omega)
    exact List.Pairwise.sublist (List.take_sublist n _) h2
  · intro p hp
    rw [hdef] at hp
    have hmem : p ∈ tally toks :=
      (sortDesc_perm (tally toks)).mem_iff.mp ((List.take_sublist n _).subset hp)
    obtain ⟨hc, hm⟩ := tally_count hmem
    have hm' : p.1 ∈ cleanTokens (f.rows.map (fun r => getCell r column)) := by
      rw [htoks]; exact hm
    exact ⟨hc, hm, cleanTokens_not_noise hm'⟩
  · rw [hdef]
    have hk : ((tally toks).map Prod.fst).Nodup := by
      rw [tally_keys]
      exact firstSeen_nodup toks
    have hperm : ((sortDesc (tally toks)).map Prod.fst).Perm ((tally toks).map Prod.fst) :=
      (sortDesc_perm (tally toks)).map Prod.fst
    have hsorted : ((sortDesc (tally toks)).map Prod.fst).Nodup := hperm.nodup_iff.mpr hk
    exact List.Nodup.sublist (List.Sublist.map Prod.fst (List.take_sublist n _)) hsorted
  · rw [hdef, List.length_take]
    have h1 : (sortDesc (tally toks)).length = (tally toks).length :=
      (sortDesc_perm _).length_eq
    have h2 : (tally toks).length = (firstSeenOrder toks).length := by
      rw [← tally_keys toks, List.length_map]
    rw [h1, h2]
  · intro v hv
    have hv1 : v ∈ (tally toks).map Prod.fst := by
      rw [tally_keys]
      exact (firstSeen_mem v toks).mpr hv
    obtain ⟨p, hp, hpv⟩ := List.mem_map.mp hv1
    have hps : p ∈ sortDesc (tally toks) := (sortDesc_perm _).mem_iff.mpr hp
    rcases Nat.le_total ((sortDesc (tally toks)).length) n with hle | hlt
    · left
      refine ⟨p.2, ?_⟩
      rw [hdef, List.take_of_length_le hle]
      have hvp : (v, p.2) = p := by
        rw [← hpv]
      rw [hvp]
      exact hps
    · right
      rw [hdef, List.length_take]
      omega
  · intro c
    rw [hdef]
    have h1 : ((sortDesc (tally toks)).take n).filter (fun p => p.2 == c)
        <+: (sortDesc (tally toks)).filter (fun p => p.2 == c) :=
      filterPre _ (takePre n _)
    rw [sortDesc_filter c (tally toks)] at h1
    exact h1

/-- Witness for C7: on a small view the frequency table is computed and is
sorted by descending count. -/
theorem C7_frequency_table_witness :
    "type" ∈ (⟨["type"], [[("type", "info:eu-repo/x; Article")], [("type", "Article; Book")],
      [("type", "Book")], [("type", "Book; http://y")]]⟩ : Frame).cols ∧
    (split_and_count_clean ⟨["type"], [[("type", "info:eu-repo/x; Article")],
      [("type", "Article; Book")], [("type", "Book")], [("type", "Book; http://y")]]⟩
      "type" 20).Pairwise (fun p q => q.2 ≤ p.2) := by
  refine ⟨by decide, ?_⟩
  exact (C7_frequency_table ⟨["type"], [[("type", "info:eu-repo/x; Article")],
    [("type", "Article; Book")], [("type", "Book")], [("type", "Book; http://y")]]⟩ "type" 20
    (by decide)).1

/-- C5: a transport or parse failure mid-harvest makes the whole harvest fail
(the `except` branch returns an empty frame) — no row flattened before the
failure is returned. -/
theorem C5_harvest_all_or_nothing :
    ∀ (recs : List RawRecord) (rest : List HEvent) (limit : Nat),
      recs.length ≤ limit →
      harvest_dynamic (recs.map HEvent.yield ++ HEvent.fail :: rest) limit = none := by
  intro recs rest limit h
  exact harvestGo_fail limit recs rest 0 [] (by omega)

/-- Witness for C5: one record is gathered, then the iterator fails; the
result is the failure value, not a one-row sample. -/
theorem C5_harvest_all_or_nothing_witness :
    [(⟨"a", "d", []⟩ : RawRecord)].length ≤ 5 ∧
    harvest_dynamic [HEvent.yield ⟨"a", "d", []⟩, HEvent.fail] 5 = none := by
  refine ⟨by decide, ?_⟩
  have h := C5_harvest_all_or_nothing [⟨"a", "d", []⟩] [] 5 (by decide)
  simpa using h

/-- C8 counterexample: on an empty view the completeness computation sits
behind `if not df.empty:` and is never run — there is no report at all, in
particular no 0% entry for the retained column "title". -/
theorem C8_empty_view_cex :
    completenessReport ⟨["title"], []⟩ cols_to_exclude = none ∧
    completenessReport ⟨["title"], []⟩ cols_to_exclude ≠ some [("title", (0 : ℚ))] := by
  exact ⟨rfl, fun h => Option.noConfusion h⟩

/-- C8 amended: for every NON-empty view, completeness maps each retained
column to 100 × (rows whose cell is present) / (rows in the view) — a
present empty-string cell counts as present, only an absent cell as missing
— and the percentage lies in [0, 100]; an empty view produces no
completeness report at all (the computation is skipped by an emptiness
guard), rather than a division-by-zero fault or a 0% report. -/
theorem C8_completeness_nonempty :
    (∀ (f : Frame) (excl : List String), f.rows ≠ [] →
      ∃ rep, completenessReport f excl = some rep ∧
        ∀ c ∈ meta_cols f excl,
          rep.lookup c =
            some (100 * ((f.rows.filter (fun r => (getCell r c).isSome)).length : ℚ)
              / f.rows.length) ∧
          0 ≤ 100 * ((f.rows.filter (fun r => (getCell r c).isSome)).length : ℚ)
              / f.rows.length ∧
          100 * ((f.rows.filter (fun r => (getCell r c).isSome)).length : ℚ)
              / f.rows.length ≤ 100) ∧
    ∀ (f : Frame) (excl : List String), f.rows = [] →
      completenessReport f excl = none := by
  constructor
  · intro f excl hne
    have hguard : f.rows.isEmpty = false := by
      cases hr : f.rows with
      | nil => exact absurd hr hne
      | cons a t => rfl
    refine ⟨_, by unfold completenessReport; rw [hguard]; rfl, ?_⟩
    intro c hc
    have hn : (0 : ℚ) < f.rows.length := by
      have : f.rows.length ≠ 0 := fun h => hne (List.length_eq_zero.mp h)
      have : 0 < f.rows.length := Nat.pos_of_ne_zero this
      exact_mod_cast this
    refine ⟨?_, ?_, ?_⟩
    · rw [lookup_map_pair
        (fun c => 100 * ((f.rows.filter (fun r => (getCell r c).isSome)).length : ℚ)
          / f.rows.length) c (meta_cols f excl)]
      rw [if_pos hc]
    · positivity
    · rw [div_le_iff₀ hn]
      have hk : ((f.rows.filter (fun r => (getCell r c).isSome)).length : ℚ)
          ≤ (f.rows.length : ℚ) := by
        exact_mod_cast List.length_filter_le _ _
      nlinarith
  · intro f excl hr
    unfold completenessReport
    rw [hr]
    rfl

/-- Witness for C8 amended: a three-row view where `title` is present twice
(once as the empty string, which still counts as present) and absent once —
completeness reports 200/3 %. -/
theorem C8_completeness_nonempty_witness :
    ((⟨["identifier", "title", "rights"],
        [[("identifier", "a"), ("title", "t")], [("identifier", "b")],
         [("identifier", "c"), ("title", "")]]⟩ : Frame).rows ≠ []) ∧
    ∃ rep, completenessReport
        ⟨["identifier", "title", "rights"],
          [[("identifier", "a"), ("title", "t")], [("identifier", "b")],
           [("identifier", "c"), ("title", "")]]⟩ cols_to_exclude = some rep ∧
      rep.lookup "title" = some ((200 : ℚ) / 3) := by
  obtain ⟨rep, hrep, hall⟩ := C8_completeness_nonempty.1
    ⟨["identifier", "title", "rights"],
      [[("identifier", "a"), ("title", "t")], [("identifier", "b")],
       [("identifier", "c"), ("title", "")]]⟩ cols_to_exclude (by simp)
  refine ⟨by simp, rep, hrep, ?_⟩
  have h := (hall "title" (by decide)).1
  rw [h]
  norm_num
  have hl : (List.filter (fun r => (getCell r "title").isSome)
      ([[("identifier", "a"), ("title", "t")], [("identifier", "b")],
        [("identifier", "c"), ("title", "")]] : List FRow)).length = 2 := by decide
  rw [hl]
  norm_num

/-- C9 counterexample: resolving an identity response that omits every field
yields exactly the four fields of app.py lines 27-32 — no admin-email field
exists and nothing falls back to "not public". -/
theorem C9_no_admin_email_cex :
    ((get_repo_info (.ok ⟨none, none, none, none, none⟩)).getD []).map Prod.fst
      = ["Nombre", "Base URL", "Versión Protocolo", "Repository ID"] ∧
    ((get_repo_info (.ok ⟨none, none, none, none, none⟩)).getD []).all
      (fun p => p.2 != some "not public") = true := by
  exact ⟨rfl, by decide⟩

/-- C9 amended: the resolver returns name/baseURL fallback "Desconocido"
("Unknown") and protocol-version fallback "2.0"; `repositoryIdentifier` has
no fallback and may be null; no admin-email field is returned at all; and
every failure collapses to the single no-value result. -/
theorem C9_repo_info_fields :
    (∀ e : OaiError, get_repo_info (.error e) = none) ∧
    ∀ idy : Identify,
      ∃ d, get_repo_info (.ok idy) = some d ∧
        d.map Prod.fst = ["Nombre", "Base URL", "Versión Protocolo", "Repository ID"] ∧
        d.lookup "Nombre" = some (some (idy.repositoryName.getD "Desconocido")) ∧
        d.lookup "Base URL" = some (some (idy.baseURL.getD "Desconocido")) ∧
        d.lookup "Versión Protocolo" = some (some (idy.protocolVersion.getD "2.0")) ∧
        d.lookup "Repository ID" = some idy.repositoryIdentifier := by
  refine ⟨fun _ => rfl, fun idy => ⟨_, rfl, rfl, ?_, ?_, ?_, ?_⟩⟩
  all_goals rfl

/-- C10 counterexample: the gate strips the entered value before comparing,
so an entry that is not a verbatim match (here with surrounding whitespace)
still unlocks a limit above 5000. -/
theorem C10_gate_strip_cex :
    select_limit (some [("Repository ID", some "repo1")]) true " repo1 " 6000 500 = 6000 ∧
    " repo1 " ≠ "repo1" ∧ 5000 < 6000 := by
  exact ⟨rfl, by decide, by decide⟩

/-- C10 amended: a limit above 5000 is selected only in high-volume mode and
only when the entered value, after stripping surrounding whitespace, is a
case-sensitive exact match of the repository identifier (in which case the
requested high limit is granted); outside high-volume mode the result never
exceeds the slider bound and is independent of the entered value. -/
theorem C10_gate_trimmed_match :
    ∀ (info : List (String × Option String)) (hv : Bool) (sc : String) (big small : Nat),
      small ≤ 5000 →
      (5000 < select_limit (some info) hv sc big small →
        hv = true ∧ pyStrEqOpt (pyStrip sc) (repo_id_get info) = true ∧
          select_limit (some info) hv sc big small = big) ∧
      (pyStrEqOpt (pyStrip sc) (repo_id_get info) = true →
        select_limit (some info) true sc big small = big) ∧
      select_limit (some info) false sc big small = small ∧
      (∀ sc' : String, select_limit (some info) false sc' big small = small) := by
  intro info hv sc big small hsmall
  refine ⟨?_, ?_, rfl, fun _ => rfl⟩
  · intro hbig
    cases hv with
    | false =>
      exfalso
      simp only [select_limit, if_neg (Bool.false_ne_true)] at hbig
      omega
    | true =>
      cases hm : pyStrEqOpt (pyStrip sc) (repo_id_get info) with
      | false =>
        exfalso
        simp only [select_limit, hm] at hbig
        simp at hbig
        omega
      | true =>
        refine ⟨rfl, rfl, ?_⟩
        simp [select_limit, hm]
  · intro hm
    simp [select_limit, hm]

/-- Witness for C10 amended: a verbatim match in high-volume mode grants the
requested 6000-record limit. -/
theorem C10_gate_trimmed_match_witness :
    500 ≤ 5000 ∧
    select_limit (some [("Repository ID", some "repo1")]) true "repo1" 6000 500 = 6000 := by
  refine ⟨by decide, ?_⟩
  exact (C10_gate_trimmed_match [("Repository ID", some "repo1")] true "repo1" 6000 500
    (by decide)).2.1 (by decide)

end OaiAudit
